import Mathlib

/-!
Verification of the registry engine of nrkno/terraform-registry.

The Go source is shallowly embedded: Go maps become association lists kept
duplicate-free by the insertion operation, Go pointers become indices into an
explicit heap list where aliasing matters, fallible Go calls become `Except`
or `Option` results, and a Go runtime panic is a distinguished result value.
External library calls (GitHub API, JWT signing, OpenPGP, JSON decoding,
SemVer parsing) are modelled as explicit executable stand-ins; their outcomes
are part of the input data where the library consumes network content.
-/

namespace TFReg

/-! ### Go map model: association lists with insert-or-replace -/

/-- Go `m[k] = v`: replace the binding when `k` is present, else append it. -/
def mapSet {α : Type} (m : List (String × α)) (k : String) (v : α) :
    List (String × α) :=
  if m.any (fun kv => kv.1 = k) then
    m.map (fun kv => if kv.1 = k then (k, v) else kv)
  else
    m ++ [(k, v)]

/-- Go `v, ok := m[k]`: first binding of `k` (maps built with `mapSet` have at
most one). -/
def mapLookup {α : Type} : List (String × α) → String → Option α
  | [], _ => none
  | kv :: rest, k => if kv.1 = k then some kv.2 else mapLookup rest k

/-- Keys of an association list. -/
def mapKeys {α : Type} (m : List (String × α)) : List String :=
  m.map (fun kv => kv.1)

theorem mapLookup_append {α : Type} (m m2 : List (String × α)) (k : String) :
    mapLookup (m ++ m2) k =
      match mapLookup m k with
      | some v => some v
      | none => mapLookup m2 k := by
  induction m with
  | nil => simp [mapLookup]
  | cons kv rest ih =>
    by_cases h : kv.1 = k
    · simp [mapLookup, h]
    · simp [mapLookup, h, ih]

theorem mapLookup_none_of_not_any {α : Type} (m : List (String × α))
    (k : String) (h : m.any (fun kv => kv.1 = k) = false) :
    mapLookup m k = none := by
  induction m with
  | nil => rfl
  | cons kv rest ih =>
    simp only [List.any_cons, Bool.or_eq_false_iff, decide_eq_false_iff_not] at h
    simp [mapLookup, h.1, ih h.2]

theorem mapLookup_replace_self {α : Type} (m : List (String × α))
    (k : String) (v : α) (h : m.any (fun kv => kv.1 = k) = true) :
    mapLookup (m.map (fun kv => if kv.1 = k then (k, v) else kv)) k = some v := by
  induction m with
  | nil => simp at h
  | cons kv rest ih =>
    by_cases hk : kv.1 = k
    · simp [mapLookup, hk]
    · simp only [List.any_cons, Bool.or_eq_true, decide_eq_true_eq] at h
      rcases h with h | h


      · exact absurd h hk
      · simp [mapLookup, hk, ih h]

theorem mapLookup_replace_ne {α : Type} (m : List (String × α))
    (k k' : String) (v : α) (h : k' ≠ k) :
    mapLookup (m.map (fun kv => if kv.1 = k then (k, v) else kv)) k' =
      mapLookup m k' := by
  induction m with
  | nil => rfl
  | cons kv rest ih =>
    by_cases hk : kv.1 = k
    · have hne : ¬ (k = k') := fun hh => h hh.symm
      simp [mapLookup, hk, hne, ih]
    · simp only [List.map_cons, hk, if_false, mapLookup, ih]

theorem mapLookup_set_self {α : Type} (m : List (String × α)) (k : String)
    (v : α) : mapLookup (mapSet m k v) k = some v := by
  unfold mapSet
  by_cases h : m.any (fun kv => kv.1 = k) = true
  · simp only [h, if_true]
    exact mapLookup_replace_self m k v h
  · have hf : m.any (fun kv => kv.1 = k) = false := Bool.eq_false_iff.mpr h
    simp only [hf, Bool.false_eq_true, if_false, mapLookup_append,
      mapLookup_none_of_not_any m k hf, mapLookup]
    simp

theorem mapLookup_set_ne {α : Type} (m : List (String × α)) (k k' : String)
    (v : α) (h : k' ≠ k) :
    mapLookup (mapSet m k v) k' = mapLookup m k' := by
  unfold mapSet
  by_cases hmem : m.any (fun kv => kv.1 = k) = true
  · simp only [hmem, if_true]
    exact mapLookup_replace_ne m k k' v h
  · have hf : m.any (fun kv => kv.1 = k) = false := Bool.eq_false_iff.mpr hmem
    have hne : ¬ (k = k') := fun hh => h hh.symm
    simp only [hf, Bool.false_eq_true, if_false, mapLookup_append, mapLookup, hne]
    rcases mapLookup m k' with _ | w <;> simp

/-! ### Go string helpers

Implemented by structural recursion over the character list of a string, so
that every definition evaluates inside the kernel on concrete inputs. -/

/-- Helper for `strContains`: does `pat` occur as a contiguous run in the
character list? -/
def containsSub (pat : List Char) : List Char → Bool
  | [] => pat.isEmpty
  | c :: rest => pat.isPrefixOf (c :: rest) || containsSub pat rest

/-- Go `strings.Contains(s, pat)`. -/
def strContains (s pat : String) : Bool :=
  containsSub pat.data s.data

/-- Go `strings.HasPrefix(s, p)`. -/
def strStartsWith (s p : String) : Bool :=
  p.data.isPrefixOf s.data

/-- Go `strings.HasSuffix(s, p)`. -/
def strEndsWith (s p : String) : Bool :=
  p.data.reverse.isPrefixOf s.data.reverse

/-- Go `strings.TrimPrefix(s, p)`. -/
def trimPrefixOf (s p : String) : String :=
  if p.data.isPrefixOf s.data then ⟨s.data.drop p.data.length⟩ else s

/-- Helper for `splitOnChar`, accumulating the current piece in reverse. -/
def splitOnCharAux (sep : Char) : List Char → List Char → List (List Char)
  | [], acc => [acc.reverse]
  | c :: rest, acc =>
    if c = sep then acc.reverse :: splitOnCharAux sep rest []
    else splitOnCharAux sep rest (c :: acc)

/-- Go `strings.Split(s, sep)` for a one-character separator. -/
def splitOnChar (s : String) (sep : Char) : List String :=
  (splitOnCharAux sep s.data []).map (fun cs => ⟨cs⟩)

/-- Concatenation with single spaces, as `strings.Join(parts, " ")`. -/
def joinSpace : List String → String
  | [] => ""
  | [a] => a
  | a :: rest => a ++ " " ++ joinSpace rest

/-- Go `strings.SplitN(s, " ", 2)`: at most two pieces, split at the first
space. -/
def splitN2Space (s : String) : List String :=
  match splitOnChar s ' ' with
  | [] => [s]
  | [a] => [a]
  | a :: rest => [a, joinSpace rest]

/-- Helper for `goFields`: split at every character satisfying `p`. -/
def splitPredAux (p : Char → Bool) : List Char → List Char → List (List Char)
  | [], acc => [acc.reverse]
  | c :: rest, acc =>
    if p c then acc.reverse :: splitPredAux p rest []
    else splitPredAux p rest (c :: acc)

/-- Go `strings.Fields`: split around runs of whitespace, no empty fields. -/
def goFields (s : String) : List String :=
  ((splitPredAux (fun c => c.isWhitespace) s.data []).map
    (fun cs => (⟨cs⟩ : String))).filter (fun f => f ≠ "")

/-- Drop one trailing carriage return, as `bufio.ScanLines` does per line. -/
def dropCR (s : String) : String :=
  if s.data.getLast? = some '\r' then ⟨s.data.dropLast⟩ else s

/-- The lines produced by a `bufio.Scanner` with the default split function:
split at every newline, no trailing empty line for newline-terminated input,
and a trailing carriage return stripped from each line. -/
def scanLines (s : String) : List String :=
  if s = "" then []
  else
    let parts := splitOnChar s '\n'
    let parts := if parts.getLast? = some "" then parts.dropLast else parts
    parts.map dropCR

/-! ### Token authentication middleware (pkg/registry/registry.go,
`Registry.TokenAuth`) -/

/-- The token set: Go `map[string]string` from description to token value. -/
abbrev TokenMap := List (String × String)

/-- What a middleware does with a request: forward it to the wrapped handler
or answer 403 itself. -/
inductive AuthResult
  | handler
  | forbidden
deriving DecidableEq

/-- Embeds `Registry.TokenAuth`. The `authHeader` argument is
`r.Header.Get("Authorization")`, which is `""` when the header is absent.
The token comparison ranges over the values of the token map, as the Go
`for _, t := range reg.GetAuthTokens()` loop does. -/
def tokenAuth (isAuthDisabled : Bool) (authHeader : String)
    (authTokens : TokenMap) : AuthResult :=
  if isAuthDisabled then .handler
  else if authHeader = "" then .forbidden
  else
    match splitN2Space authHeader with
    | [tokenType, token] =>
      if tokenType ≠ "Bearer" then .forbidden
      else if authTokens.any (fun kv => kv.2 = token) then .handler
      else .forbidden
    | _ => .forbidden

theorem splitN2Space_length (s : String) :
    (splitN2Space s).length = 1 ∨ (splitN2Space s).length = 2 := by
  unfold splitN2Space
  rcases h : splitOnChar s ' ' with _ | ⟨a, _ | ⟨b, rest⟩⟩ <;> simp [h]

/-- C1. With authentication enabled, the middleware answers 403 without
invoking the handler whenever the Authorization header is absent (empty), does
not split into exactly two space-separated pieces, or its first piece is not
literally "Bearer"; otherwise the request reaches the handler exactly when the
presented token equals some value of the token set (descriptions ignored). -/
theorem tokenAuth_spec (h : String) (m : TokenMap) :
    ((h = "" ∨ (splitN2Space h).length ≠ 2 ∨
        (splitN2Space h).head? ≠ some "Bearer") →
      tokenAuth false h m = .forbidden) ∧
    (∀ t, h ≠ "" → splitN2Space h = ["Bearer", t] →
      (tokenAuth false h m = .handler ↔ ∃ kv ∈ m, kv.2 = t)) := by
  constructor
  · intro hbad
    by_cases hemp : h = ""
    · simp [tokenAuth, hemp]
    · rcases hbad with hbad | hbad | hbad
      · exact absurd hbad hemp
      · unfold tokenAuth
        simp only [Bool.false_eq_true, if_false, hemp, if_false]
        rcases hsp : splitN2Space h with _ | ⟨a, _ | ⟨b, _ | ⟨c, rest⟩⟩⟩
        · rfl
        · rfl
        · exact absurd (by simp [hsp]) hbad
        · rfl
      · unfold tokenAuth
        simp only [Bool.false_eq_true, if_false, hemp, if_false]
        rcases hsp : splitN2Space h with _ | ⟨a, _ | ⟨b, _ | ⟨c, rest⟩⟩⟩
        · rfl
        · rfl
        · have ha : a ≠ "Bearer" := by
            intro hh
            exact hbad (by simp [hsp, hh])
          simp [ha]
        · rfl
  · intro t hemp hsp
    unfold tokenAuth
    simp only [Bool.false_eq_true, if_false, hemp, if_false, hsp]
    rw [if_neg (by simp)]
    by_cases hany : m.any (fun kv => kv.2 = t) = true
    · rw [if_pos hany]
      simp only [List.any_eq_true, decide_eq_true_eq] at hany
      simp [hany]
    · rw [if_neg hany]
      have hne : ¬ ∃ kv ∈ m, kv.2 = t := by
        intro hc
        apply hany
        simp only [List.any_eq_true, decide_eq_true_eq]
        exact hc
      simp [hne]

/-- Witness for `tokenAuth_spec` at a concrete header and token set: the
well-formed header "Bearer tok2" is accepted against a set containing value
"tok2" under another description. -/
theorem tokenAuth_spec_witness :
    tokenAuth false "Bearer tok2" [("d1", "tok1"), ("d2", "tok2")] =
      .handler :=
  ((tokenAuth_spec "Bearer tok2" [("d1", "tok1"), ("d2", "tok2")]).2
      "tok2" (by decide) (by decide)).mpr
    ⟨("d2", "tok2"), by decide, rfl⟩

/-! ### Auth token set accessors (pkg/registry/registry.go,
`Registry.GetAuthTokens` / `Registry.SetAuthTokens`)

A Go map value is a reference; to make aliasing expressible the map objects
live on an explicit heap and both the caller and the registry hold indices
into it. -/

/-- Registry state for token handling: a heap of map objects and the
reference held in the `authTokens` field. -/
structure RegTokenState where
  heap : List TokenMap
  authTokens : Nat

/-- Dereference a map reference. -/
def heapMap (heap : List TokenMap) (r : Nat) : TokenMap :=
  (heap[r]?).getD []

/-- The copy loop both accessors share:
`m := make(map[string]string, len(src)); for k, v := range src { m[k] = v }`. -/
def copyMap (src : TokenMap) : TokenMap :=
  src.foldl (fun acc kv => mapSet acc kv.1 kv.2) []

/-- Embeds `Registry.SetAuthTokens`: copy the argument map into a fresh heap object
and point the `authTokens` field at the copy. -/
def setAuthTokens (st : RegTokenState) (r : Nat) : RegTokenState :=
  { heap := st.heap ++ [copyMap (heapMap st.heap r)],
    authTokens := st.heap.length }

/-- Embeds `Registry.GetAuthTokens`: allocate a fresh copy of the stored map and
return a reference to it. -/
def getAuthTokens (st : RegTokenState) : RegTokenState × Nat :=
  ({ st with heap := st.heap ++ [copyMap (heapMap st.heap st.authTokens)] },
    st.heap.length)

/-- Go `m[k] = v` through a reference: mutate the heap object in place. -/
def mutateMapAt (st : RegTokenState) (r : Nat) (k v : String) : RegTokenState :=
  { st with heap := st.heap.set r (mapSet (heapMap st.heap r) k v) }

theorem foldl_mapSet_append {α : Type} (m acc : List (String × α))
    (hnd : (mapKeys m).Nodup)
    (hdisj : ∀ kv ∈ m, acc.any (fun kv2 => kv2.1 = kv.1) = false) :
    m.foldl (fun a kv => mapSet a kv.1 kv.2) acc = acc ++ m := by
  induction m generalizing acc with
  | nil => simp
  | cons kv rest ih =>
    have hhead : acc.any (fun kv2 => kv2.1 = kv.1) = false :=
      hdisj kv (List.mem_cons_self kv rest)
    have hset : mapSet acc kv.1 kv.2 = acc ++ [(kv.1, kv.2)] := by
      unfold mapSet
      simp [hhead]
    have hnd2 : (mapKeys rest).Nodup := by
      simpa [mapKeys] using hnd.of_cons
    have hhd : kv.1 ∉ mapKeys rest := by
      have := hnd
      simp only [mapKeys, List.map_cons, List.nodup_cons] at this
      exact fun hmem => this.1 (by simpa [mapKeys] using hmem)
    have hdisj2 : ∀ kv2 ∈ rest,
        (acc ++ [(kv.1, kv.2)]).any (fun kv3 => kv3.1 = kv2.1) = false := by
      intro kv2 hmem
      have h1 : acc.any (fun kv3 => kv3.1 = kv2.1) = false :=
        hdisj kv2 (List.mem_cons_of_mem kv hmem)
      have h2 : kv.1 ≠ kv2.1 := by
        intro hh
        exact hhd (by simpa [mapKeys, hh] using List.mem_map_of_mem Prod.fst hmem)
      simp [List.any_append, h1, h2]
    calc (kv :: rest).foldl (fun a kv => mapSet a kv.1 kv.2) acc
        = rest.foldl (fun a kv => mapSet a kv.1 kv.2) (mapSet acc kv.1 kv.2) :=
          by simp [List.foldl_cons]
      _ = (acc ++ [(kv.1, kv.2)]) ++ rest := by
            rw [hset]
            exact ih _ hnd2 hdisj2
      _ = acc ++ kv :: rest := by simp

/-- With the unique keys every Go map has, the copy loop reproduces the map
exactly. -/
theorem copyMap_eq_self {m : TokenMap} (hnd : (mapKeys m).Nodup) :
    copyMap m = m := by
  have := foldl_mapSet_append m [] hnd (by intro kv _; rfl)
  simpa [copyMap] using this

/-- C8. `SetAuthTokens` then `GetAuthTokens` returns a map equal to the
argument map, the stored set is a fresh object distinct from the argument
reference, and neither mutating the argument map afterwards nor mutating the
returned map changes the token set the registry authenticates against. -/
theorem authTokens_copy_semantics (st : RegTokenState) (r : Nat)
    (hr : r < st.heap.length) (hnd : (mapKeys (heapMap st.heap r)).Nodup) :
    heapMap (getAuthTokens (setAuthTokens st r)).1.heap
        (getAuthTokens (setAuthTokens st r)).2 = heapMap st.heap r ∧
    (setAuthTokens st r).authTokens ≠ r ∧
    (∀ k v,
      heapMap (mutateMapAt (setAuthTokens st r) r k v).heap
          (mutateMapAt (setAuthTokens st r) r k v).authTokens =
        heapMap (setAuthTokens st r).heap (setAuthTokens st r).authTokens) ∧
    (∀ k v,
      heapMap (mutateMapAt (getAuthTokens (setAuthTokens st r)).1
            (getAuthTokens (setAuthTokens st r)).2 k v).heap
          (setAuthTokens st r).authTokens =
        heapMap (setAuthTokens st r).heap (setAuthTokens st r).authTokens) := by
  have hconcat : ∀ (heap : List TokenMap) (m : TokenMap),
      heapMap (heap ++ [m]) heap.length = m := by
    intro heap m
    unfold heapMap
    rw [List.getElem?_concat_length]
    rfl
  have hstored :
      heapMap (setAuthTokens st r).heap (setAuthTokens st r).authTokens =
        heapMap st.heap r := by
    show heapMap (st.heap ++ [copyMap (heapMap st.heap r)]) st.heap.length =
      heapMap st.heap r
    rw [hconcat]
    exact copyMap_eq_self hnd
  refine ⟨?_, ?_, ?_, ?_⟩
  · show heapMap ((setAuthTokens st r).heap ++
        [copyMap (heapMap (setAuthTokens st r).heap
          (setAuthTokens st r).authTokens)])
      (setAuthTokens st r).heap.length = heapMap st.heap r
    rw [hconcat, hstored]
    exact copyMap_eq_self hnd
  · simp only [setAuthTokens]
    exact Nat.ne_of_gt hr
  · intro k v
    simp only [mutateMapAt, heapMap]
    rw [List.getElem?_set_ne
      (show r ≠ (setAuthTokens st r).authTokens from Nat.ne_of_lt hr)]
  · intro k v
    have hne : (setAuthTokens st r).heap.length ≠
        (setAuthTokens st r).authTokens := by
      simp [setAuthTokens]
    have hlt : (setAuthTokens st r).authTokens <
        (setAuthTokens st r).heap.length := by
      simp [setAuthTokens]
    simp only [mutateMapAt, getAuthTokens, heapMap]
    rw [List.getElem?_set_ne hne, List.getElem?_append_left hlt]

/-- Witness for `authTokens_copy_semantics`: one stored map object holding a
single token, set from reference 0 and read back. -/
theorem authTokens_copy_semantics_witness :
    heapMap (getAuthTokens (setAuthTokens ⟨[[("desc", "tok")]], 0⟩ 0)).1.heap
        (getAuthTokens (setAuthTokens ⟨[[("desc", "tok")]], 0⟩ 0)).2 =
      heapMap [[("desc", "tok")]] 0 :=
  (authTokens_copy_semantics ⟨[[("desc", "tok")]], 0⟩ 0 (by decide)
    (by decide)).1

/-! ### Signed asset tickets

The registry signs and verifies JWTs through the external golang-jwt library
with signing method HS256. The MAC is modelled as an executable keyed hash of
secret and encoded claims; the claims under verification depend only on it
being a function of both. Per the library contract, a token is rejected as
expired when its expiry lies before the verification time. -/

/-- The registered claims the handler sets: an expiry (seconds) and an
issuer. -/
structure JWTClaims where
  exp : Int
  iss : String
deriving DecidableEq

/-- Canonical encoding of the claims, the MAC input. -/
def encodeClaims (c : JWTClaims) : String :=
  "exp:" ++ toString c.exp ++ ";iss:" ++ c.iss

/-- Executable stand-in for HMAC-SHA256 over the process-wide secret. -/
def hmacSHA256 (secret msg : String) : Nat :=
  (secret ++ "|" ++ msg).data.foldl
    (fun h c => (h * 131 + c.toNat) % 2 ^ 64) 5381

/-- A compact token: claims plus the MAC over their encoding. -/
structure SignedToken where
  claims : JWTClaims
  sig : Nat
deriving DecidableEq

/-- Embeds `jwt.NewWithClaims(jwt.SigningMethodHS256, claims).SignedString(secret)`. -/
def signToken (secret : String) (c : JWTClaims) : SignedToken :=
  ⟨c, hmacSHA256 secret (encodeClaims c)⟩

/-- The wire form appended to URLs as `?token=...`. -/
def serializeToken (t : SignedToken) : String :=
  encodeClaims t.claims ++ ";sig:" ++ toString t.sig

/-- Outcome of `jwt.Parse` with the registry keyfunc: signature checked
against the secret, then the expiry claim against the current time. -/
inductive JWTVerify
  | valid
  | expired
  | invalid

/-- Embeds `jwt.Parse(tokenString, keyfunc)` over the structured token. -/
def verifyToken (secret : String) (now : Int) (t : SignedToken) : JWTVerify :=
  if t.sig ≠ hmacSHA256 secret (encodeClaims t.claims) then .invalid
  else if t.claims.exp < now then .expired
  else .valid

/-- Embeds `Registry.ProviderDownloadAuth` (pkg/registry/registry.go): the middleware
on the `/download/provider/` routes. `tokenParam` is the `token` query
parameter; `none` covers both a missing and an empty parameter, which the
code treats identically. -/
def providerDownloadAuth (isAuthDisabled : Bool) (secret : String) (now : Int)
    (tokenParam : Option SignedToken) : AuthResult :=
  if isAuthDisabled then .handler
  else
    match tokenParam with
    | none => .forbidden
    | some t =>
      match verifyToken secret now t with
      | .valid => .handler
      | .expired => .forbidden
      | .invalid => .forbidden

/-- C3. With authentication enabled, a missing or empty `token` query
parameter, a signature that does not verify against the process-wide secret,
or an expiry before the current time each yield 403 without reaching the
asset handler; a token whose signature verifies and whose expiry is not in
the past is passed through. -/
theorem providerDownloadAuth_spec (secret : String) (now : Int)
    (t : SignedToken) :
    providerDownloadAuth false secret now none = .forbidden ∧
    (t.sig ≠ hmacSHA256 secret (encodeClaims t.claims) →
      providerDownloadAuth false secret now (some t) = .forbidden) ∧
    (t.claims.exp < now →
      providerDownloadAuth false secret now (some t) = .forbidden) ∧
    (t.sig = hmacSHA256 secret (encodeClaims t.claims) → now ≤ t.claims.exp →
      providerDownloadAuth false secret now (some t) = .handler) := by
  refine ⟨rfl, ?_, ?_, ?_⟩
  · intro hsig
    simp [providerDownloadAuth, verifyToken, hsig]
  · intro hexp
    by_cases hsig : t.sig = hmacSHA256 secret (encodeClaims t.claims)
    · simp [providerDownloadAuth, verifyToken, hsig, hexp]
    · simp [providerDownloadAuth, verifyToken, hsig]
  · intro hsig hexp
    have hnot : ¬ t.claims.exp < now := Int.not_lt.mpr hexp
    simp [providerDownloadAuth, verifyToken, hsig, hnot]

/-- Witness for `providerDownloadAuth_spec`: a ticket signed with the right
secret but expired 10 seconds ago is rejected; a fresh one is let through. -/
theorem providerDownloadAuth_spec_witness :
    providerDownloadAuth false "secret" 100
        (some (signToken "secret" ⟨90, "terraform-registry"⟩)) = .forbidden ∧
    providerDownloadAuth false "secret" 100
        (some (signToken "secret" ⟨110, "terraform-registry"⟩)) = .handler :=
  ⟨(providerDownloadAuth_spec "secret" 100
      (signToken "secret" ⟨90, "terraform-registry"⟩)).2.2.1 (by decide),
   (providerDownloadAuth_spec "secret" 100
      (signToken "secret" ⟨110, "terraform-registry"⟩)).2.2.2 rfl (by decide)⟩

/-! ### Provider data model (pkg/core/core.go) -/

structure GpgPublicKeys where
  KeyID : String
  ASCIIArmor : String
  TrustSignature : String
  Source : String
  SourceURL : String
deriving DecidableEq

structure SigningKeys where
  GPGPublicKeys : List GpgPublicKeys
deriving DecidableEq

structure Provider where
  Protocols : List String
  OS : String
  Arch : String
  Filename : String
  DownloadURL : String
  SHASumsURL : String
  SHASumsSignatureURL : String
  SHASum : String
  SigningKeys : SigningKeys
deriving DecidableEq

/-- Embeds `Provider.Copy` (pkg/core/core.go): a fresh record with every field
copied. -/
def Provider.copy (p : Provider) : Provider :=
  { Protocols := p.Protocols
    OS := p.OS
    Arch := p.Arch
    Filename := p.Filename
    DownloadURL := p.DownloadURL
    SHASumsURL := p.SHASumsURL
    SHASumsSignatureURL := p.SHASumsSignatureURL
    SHASum := p.SHASum
    SigningKeys := p.SigningKeys }

theorem Provider.copy_eq (p : Provider) : p.copy = p := by
  cases p
  rfl

/-- Embeds `cacheKey` (github store): `strings.Join(s, "/")`. -/
def cacheKey : List String → String
  | [] => ""
  | [a] => a
  | a :: rest => a ++ "/" ++ cacheKey rest

/-! ### Provider download handler (pkg/registry/registry.go,
`Registry.ProviderDownload`)

The store's cache maps each key to a pointer to a `Provider`; the handler
receives that pointer. Pointers are indices into an explicit heap so that
mutation of the index through an uncopied pointer would be expressible. -/

/-- Response of the provider download handler: 404 on a failed lookup, or the
JSON-encoded record. -/
inductive DownloadResult
  | notFound
  | ok (p : Provider)
deriving DecidableEq

/-- The three URL fields after ticket signing; all other fields are the
copied record's. -/
def withTokenURLs (p : Provider) (tok : String) : Provider :=
  { p with
    DownloadURL := p.DownloadURL ++ "?token=" ++ tok
    SHASumsURL := p.SHASumsURL ++ "?token=" ++ tok
    SHASumsSignatureURL := p.SHASumsSignatureURL ++ "?token=" ++ tok }

/-- Embeds `Registry.ProviderDownload`: look the package up by
`namespace/name/version/os/arch`; when its download URL points at the asset
proxy and auth is enabled, copy the record into a fresh heap cell and append
`?token=<jwt>` (expiry now + 10 seconds, issuer "terraform-registry") to the
three URL fields of the copy. -/
def providerDownload (heap : List Provider) (cache : List (String × Nat))
    (isAuthDisabled : Bool) (secret : String) (now : Int)
    (ns name version os arch : String) : List Provider × DownloadResult :=
  match mapLookup cache (cacheKey [ns, name, version, os, arch]) with
  | none => (heap, .notFound)
  | some r =>
    match heap[r]? with
    | none => (heap, .notFound)
    | some provider =>
      if strStartsWith provider.DownloadURL "/download" && !isAuthDisabled then
        let tokenString := serializeToken
          (signToken secret { exp := now + 10, iss := "terraform-registry" })
        let modified := withTokenURLs provider.copy tokenString
        (heap ++ [modified], .ok modified)
      else (heap, .ok provider)

/-- C4. With auth enabled and a stored package whose download URL starts with
"/download": the handler answers with a copy of the record whose three URL
fields carry `?token=<jwt>` for a ticket with expiry `now + 10` and issuer
"terraform-registry" signed over the secret, every other field equal to the
stored record; every previously allocated record, the indexed one included,
is unchanged. -/
theorem providerDownload_signs_urls (heap : List Provider)
    (cache : List (String × Nat)) (secret : String) (now : Int)
    (ns name version os arch : String) (r : Nat) (p : Provider)
    (hlook : mapLookup cache (cacheKey [ns, name, version, os, arch]) = some r)
    (hget : heap[r]? = some p)
    (hpriv : strStartsWith p.DownloadURL "/download" = true) :
    providerDownload heap cache false secret now ns name version os arch =
      (heap ++ [withTokenURLs p (serializeToken
          (signToken secret ⟨now + 10, "terraform-registry"⟩))],
        .ok (withTokenURLs p (serializeToken
          (signToken secret ⟨now + 10, "terraform-registry"⟩)))) ∧
    (∀ i, i < heap.length →
      (providerDownload heap cache false secret now ns name version os
          arch).1[i]? = heap[i]?) := by
  have hmain : providerDownload heap cache false secret now ns name version
      os arch =
      (heap ++ [withTokenURLs p (serializeToken
          (signToken secret ⟨now + 10, "terraform-registry"⟩))],
        .ok (withTokenURLs p (serializeToken
          (signToken secret ⟨now + 10, "terraform-registry"⟩)))) := by
    simp [providerDownload, hlook, hget, hpriv, Provider.copy_eq]
  refine ⟨hmain, ?_⟩
  intro i hi
  rw [hmain]
  exact List.getElem?_append_left hi

/-- Witness for `providerDownload_signs_urls`: a one-record index whose
package is served through the asset proxy. -/
theorem providerDownload_signs_urls_witness :
    providerDownload
        [{ Protocols := ["5.0"], OS := "linux", Arch := "amd64",
           Filename := "a.zip",
           DownloadURL := "/download/provider/o/r/v1.0.0/asset/a.zip",
           SHASumsURL := "/download/provider/o/r/v1.0.0/asset/s",
           SHASumsSignatureURL := "/download/provider/o/r/v1.0.0/asset/s.sig",
           SHASum := "h", SigningKeys := ⟨[]⟩ }]
        [("hashicorp/aws/1.0.0/linux/amd64", 0)] false "secret" 100
        "hashicorp" "aws" "1.0.0" "linux" "amd64" =
      ([{ Protocols := ["5.0"], OS := "linux", Arch := "amd64",
           Filename := "a.zip",
           DownloadURL := "/download/provider/o/r/v1.0.0/asset/a.zip",
           SHASumsURL := "/download/provider/o/r/v1.0.0/asset/s",
           SHASumsSignatureURL := "/download/provider/o/r/v1.0.0/asset/s.sig",
           SHASum := "h", SigningKeys := ⟨[]⟩ },
        withTokenURLs
          { Protocols := ["5.0"], OS := "linux", Arch := "amd64",
            Filename := "a.zip",
            DownloadURL := "/download/provider/o/r/v1.0.0/asset/a.zip",
            SHASumsURL := "/download/provider/o/r/v1.0.0/asset/s",
            SHASumsSignatureURL := "/download/provider/o/r/v1.0.0/asset/s.sig",
            SHASum := "h", SigningKeys := ⟨[]⟩ }
          (serializeToken (signToken "secret" ⟨110, "terraform-registry"⟩))],
       .ok (withTokenURLs
          { Protocols := ["5.0"], OS := "linux", Arch := "amd64",
            Filename := "a.zip",
            DownloadURL := "/download/provider/o/r/v1.0.0/asset/a.zip",
            SHASumsURL := "/download/provider/o/r/v1.0.0/asset/s",
            SHASumsSignatureURL := "/download/provider/o/r/v1.0.0/asset/s.sig",
            SHASum := "h", SigningKeys := ⟨[]⟩ }
          (serializeToken (signToken "secret" ⟨110, "terraform-registry"⟩)))) :=
  (providerDownload_signs_urls _ _ "secret" 100 "hashicorp" "aws" "1.0.0"
    "linux" "amd64" 0 _ (by decide) rfl (by decide)).1

/-! ### GitHub store: data as the store consumes it

The GitHub API and the per-asset downloads are network inputs; a refresh
cycle is a function of the data the API returned, with `Except` recording
call failures. -/

/-- A release asset. `content` is the byte stream `DownloadReleaseAsset`
serves and `downloadErr` a failing download. `armorParse` and `manifestParse`
record what the external OpenPGP armored key-ring parser (entity key-id
strings) and the JSON manifest decoder (`metadata.protocol_versions`) yield
on `content`; `none` is a parse failure. `streamErr` is a failure while the
asset body is being copied to a response. -/
structure ReleaseAsset where
  name : String
  browserDownloadURL : String
  content : String
  downloadErr : Bool
  armorParse : Option (List String)
  manifestParse : Option (List String)
  streamErr : Bool
deriving DecidableEq

/-- A GitHub release: `GetName()` is the tag-like release name. -/
structure Release where
  name : String
  assets : List ReleaseAsset
deriving DecidableEq

structure Platform where
  OS : String
  Arch : String
deriving DecidableEq

structure ProviderVersion where
  Version : String
  Protocols : List String
  Platforms : List Platform
deriving DecidableEq

structure ProviderVersions where
  Versions : List ProviderVersion
deriving DecidableEq

/-- An error from a GitHub API call; the rate-limit condition is the case the
spec singles out. -/
inductive GHErr
  | rateLimit
  | other
deriving DecidableEq

/-! ### parseSHASumsFile -/

/-- The line loop of `parseSHASumsFile`. Each line is split into fields and
indexed at `parts[0]` and `parts[1]` without a length check; on a line with
fewer than two fields the Go code panics with an index-out-of-range error,
modelled as `none`. Extra fields are ignored and a repeated file name keeps
the last hash. -/
def parseSHASumsLines :
    List String → List (String × String) → Option (List (String × String))
  | [], sums => some sums
  | line :: rest, sums =>
    match goFields line with
    | hash :: fileName :: _ => parseSHASumsLines rest (mapSet sums fileName hash)
    | _ => none

/-- Embeds `parseSHASumsFile`: scan the checksum file content line by line into a
file-name-to-hash map. -/
def parseSHASumsFile (content : String) : Option (List (String × String)) :=
  parseSHASumsLines (scanLines content) []

/-! ### extractOsArch -/

/-- The character class `[a-zA-Z0-9]` of the release regex. -/
def isAlnumChar (c : Char) : Bool :=
  c.isAlpha || c.isDigit

/-- The alternatives of the first capture group of
`_(freebsd|darwin|linux|windows)_([a-zA-Z0-9]+)\.+`. -/
def osNames : List String := ["freebsd", "darwin", "linux", "windows"]

/-- Match the release regex at the head of the character list: an
underscore, one of the four OS names, an underscore, a maximal non-empty
alphanumeric run, then at least one dot. -/
def matchOsArchAt (cs : List Char) : Option (String × String) :=
  match cs with
  | '_' :: rest =>
    match osNames.find? (fun os => os.data.isPrefixOf rest) with
    | none => none
    | some os =>
      match rest.drop os.data.length with
      | '_' :: rest2 =>
        let arch := rest2.takeWhile isAlnumChar
        let rest3 := rest2.dropWhile isAlnumChar
        if arch ≠ [] ∧ rest3.head? = some '.' then some (os, ⟨arch⟩)
        else none
      | _ => none
  | _ => none

/-- Leftmost match of the release regex over the whole string. -/
def findOsArch : List Char → Option (String × String)
  | [] => none
  | c :: rest =>
    match matchOsArchAt (c :: rest) with
    | some r => some r
    | none => findOsArch rest

/-- Embeds `extractOsArch`: `none` is the `ok = false` return for an asset name
without platform information. -/
def extractOsArch (name : String) : Option Platform :=
  (findOsArch name.data).map (fun p => { OS := p.1, Arch := p.2 })

/-! ### Per-release asset getters -/

/-- Result of `GitHubStore.getSHA256Sums`, which returns
`(map, url, fileName, err)`: `panic` is the parse panic, `fail` the download
error return, `notFound` the `(nil, "", "", nil)` return when no asset whose
name contains "SHA256SUMS" without the ".sig" suffix exists. -/
inductive SumsResult
  | panic
  | fail
  | notFound
  | found (sums : List (String × String)) (url fileName : String)
deriving DecidableEq

/-- Embeds `GitHubStore.getSHA256Sums`: the first asset whose name contains
"SHA256SUMS" and does not end in ".sig" is downloaded and parsed. -/
def getSHA256Sums : List ReleaseAsset → SumsResult
  | [] => .notFound
  | a :: rest =>
    if strContains a.name "SHA256SUMS" && !(strEndsWith a.name ".sig") then
      if a.downloadErr then .fail
      else
        match parseSHASumsFile a.content with
        | none => .panic
        | some sums => .found sums a.browserDownloadURL a.name
    else getSHA256Sums rest

/-- Embeds `GitHubStore.getProviderProtocols`: protocols default to `["5.0"]`; the
first asset whose name contains "manifest.json" replaces them, and a
download or decode failure is an error. -/
def getProviderProtocols : List ReleaseAsset → Except Unit (List String)
  | [] => .ok ["5.0"]
  | a :: rest =>
    if strContains a.name "manifest.json" then
      if a.downloadErr then .error ()
      else
        match a.manifestParse with
        | none => .error ()
        | some pv => .ok pv
    else getProviderProtocols rest

/-- Embeds `GitHubStore.getGPGPublicKey`: every asset whose name contains
"gpg-public-key.pem" is downloaded and parsed as an armored key ring; a ring
with other than exactly one entity is an error; with several such assets the
last one wins. No such asset returns the nil slice. -/
def getGPGPublicKey :
    List ReleaseAsset → List GpgPublicKeys → Except Unit (List GpgPublicKeys)
  | [], keys => .ok keys
  | a :: rest, keys =>
    if strContains a.name "gpg-public-key.pem" then
      if a.downloadErr then .error ()
      else
        match a.armorParse with
        | none => .error ()
        | some els =>
          if els.length ≠ 1 then .error ()
          else
            getGPGPublicKey rest
              [{ KeyID := els.headI, ASCIIArmor := a.content,
                 TrustSignature := "", Source := "", SourceURL := "" }]
    else getGPGPublicKey rest keys

/-! ### Provider cache refresh (`GitHubStore.ReloadProviderCache`) -/

/-- The asset-proxy path a private repository's URLs are rewritten to:
`/download/provider/{owner}/{repo}/v{version}/asset/{filename}`. -/
def proxyPath (owner name version fileName : String) : String :=
  "/download/provider/" ++ owner ++ "/" ++ name ++ "/v" ++ version ++
    "/asset/" ++ fileName

/-- The asset loop of `ReloadProviderCache`: collect a platform and a package
cache entry for every asset matching the release regex. For a private
repository the three URLs are rewritten onto the asset proxy (the Go loop
mutates its local `SHASumURL` in place with the same value on every
iteration); for a public one the checksum URL is the asset URL and the
signature URL that URL plus ".sig". -/
def buildPackages (owner nameKey version : String) (isPrivate : Bool)
    (protocols : List String) (SHASums : List (String × String))
    (SHASumURL SHASumFileName : String) (keys : List GpgPublicKeys)
    (name : String) (providerCache : List (String × Provider)) :
    List ReleaseAsset → List Platform × List (String × Provider)
  | [] => ([], providerCache)
  | asset :: rest =>
    match extractOsArch asset.name with
    | none =>
      buildPackages owner nameKey version isPrivate protocols SHASums
        SHASumURL SHASumFileName keys name providerCache rest
    | some platform =>
      let downloadUrl :=
        if isPrivate then proxyPath owner name version asset.name
        else asset.browserDownloadURL
      let shaURL :=
        if isPrivate then proxyPath owner name version SHASumFileName
        else SHASumURL
      let shaSigURL :=
        if isPrivate then proxyPath owner name version (SHASumFileName ++ ".sig")
        else SHASumURL ++ ".sig"
      let p : Provider :=
        { Protocols := protocols, OS := platform.OS, Arch := platform.Arch,
          Filename := asset.name, DownloadURL := downloadUrl,
          SHASumsURL := shaURL, SHASumsSignatureURL := shaSigURL,
          SHASum := (mapLookup SHASums asset.name).getD "",
          SigningKeys := { GPGPublicKeys := keys } }
      let res := buildPackages owner nameKey version isPrivate protocols
        SHASums SHASumURL SHASumFileName keys name
        (mapSet providerCache
          (cacheKey [owner, nameKey, version, platform.OS, platform.Arch]) p)
        rest
      (platform :: res.1, res.2)

/-- The body of the release loop of `ReloadProviderCache` for one release:
check the ignore cache, then checksums, protocols and GPG key; on any
validation failure record the release in the ignore cache and admit nothing;
otherwise admit its packages and, when at least one platform was found, a
version entry. `none` is the runtime panic of the checksum parse. -/
def processRelease (ignoreCache : List String)
    (providerCache : List (String × Provider)) (owner name nameKey : String)
    (isPrivate : Bool) (release : Release) :
    Option (List String × List (String × Provider) × Option ProviderVersion) :=
  let version := trimPrefixOf release.name "v"
  let key := cacheKey [nameKey, version]
  if key ∈ ignoreCache then
    some (ignoreCache, providerCache, none)
  else
    match getSHA256Sums release.assets with
    | .panic => none
    | .fail => some (ignoreCache ++ [key], providerCache, none)
    | .notFound => some (ignoreCache ++ [key], providerCache, none)
    | .found SHASums SHASumURL SHASumFileName =>
      match getProviderProtocols release.assets with
      | .error _ => some (ignoreCache ++ [key], providerCache, none)
      | .ok providerProtocols =>
        match getGPGPublicKey release.assets [] with
        | .error _ => some (ignoreCache ++ [key], providerCache, none)
        | .ok keys =>
          if keys.length ≠ 1 then
            some (ignoreCache ++ [key], providerCache, none)
          else
            let res := buildPackages owner nameKey version isPrivate
              providerProtocols SHASums SHASumURL SHASumFileName keys name
              providerCache release.assets
            some (ignoreCache, res.2,
              if res.1.length > 0 then
                some { Version := version, Protocols := providerProtocols,
                       Platforms := res.1 }
              else none)

/-- The release loop of `ReloadProviderCache` over all releases of one
repository, accumulating versions in release order. -/
def processReleases (ignoreCache : List String)
    (providerCache : List (String × Provider))
    (versions : List ProviderVersion) (owner name nameKey : String)
    (isPrivate : Bool) :
    List Release →
      Option (List String × List (String × Provider) × List ProviderVersion)
  | [] => some (ignoreCache, providerCache, versions)
  | rel :: rest =>
    match processRelease ignoreCache providerCache owner name nameKey
        isPrivate rel with
    | none => none
    | some (ig2, pc2, pv) =>
      processReleases ig2 pc2 (versions ++ pv.toList) owner name nameKey
        isPrivate rest

/-- A repository as the provider refresh consumes it. -/
structure RepoData where
  fullName : String
  isPrivate : Bool
  releases : Except GHErr (List Release)

/-- What the GitHub API returned during one provider refresh cycle. -/
structure ProviderFetch where
  searchResult : Except GHErr (List RepoData)

/-- The two provider index maps the store publishes together. -/
structure ProviderCaches where
  providerVersionsCache : List (String × ProviderVersions)
  providerCache : List (String × Provider)
deriving DecidableEq

/-- Store state touched by a provider refresh: the published caches and the
process-lifetime ignore cache (a set of `nameKey/version` keys). -/
structure GHProviderState where
  caches : ProviderCaches
  ignoreCache : List String
deriving DecidableEq

/-- Intermediate result of the repository loop. An error return happens
before the caches are swapped, so it carries only the (in-place mutated)
ignore cache. -/
inductive RepoLoopResult
  | panic
  | err (e : GHErr) (ignoreCache : List String)
  | ok (ignoreCache : List String)
      (providerVersionsCache : List (String × ProviderVersions))
      (providerCache : List (String × Provider))
deriving DecidableEq

/-- The repository loop of `ReloadProviderCache`: split `full_name`, skip
repositories not named `terraform-provider-*`, list releases, process them,
and record the version list for `owner/nameKey` (also when it is empty). -/
def processRepos (ignoreCache : List String)
    (providerVersionsCache : List (String × ProviderVersions))
    (providerCache : List (String × Provider)) :
    List RepoData → RepoLoopResult
  | [] => .ok ignoreCache providerVersionsCache providerCache
  | repo :: rest =>
    match splitOnChar repo.fullName '/' with
    | [owner, name] =>
      if !(strStartsWith name "terraform-provider-") then
        processRepos ignoreCache providerVersionsCache providerCache rest
      else
        let nameKey := trimPrefixOf name "terraform-provider-"
        match repo.releases with
        | .error e => .err e ignoreCache
        | .ok releases =>
          match processReleases ignoreCache providerCache [] owner name
              nameKey repo.isPrivate releases with
          | none => .panic
          | some (ig2, pc2, versions) =>
            processRepos ig2
              (mapSet providerVersionsCache (cacheKey [owner, nameKey])
                { Versions := versions })
              pc2 rest
    | _ => .err .other ignoreCache

/-- Outcome of one `ReloadProviderCache` call. -/
inductive ReloadOutcome
  | panic
  | err (e : GHErr) (st : GHProviderState)
  | ok (st : GHProviderState)
deriving DecidableEq

/-- Embeds `GitHubStore.ReloadProviderCache`: search provider repositories, build
fresh maps locally, and only swap them in after the loop completes; every
error return leaves the published caches as they were. -/
def reloadProviderCache (st : GHProviderState) (fetch : ProviderFetch) :
    ReloadOutcome :=
  match fetch.searchResult with
  | .error e => .err e st
  | .ok repos =>
    match processRepos st.ignoreCache [] [] repos with
    | .panic => .panic
    | .err e ig => .err e { st with ignoreCache := ig }
    | .ok ig pvc pc =>
      .ok { caches := { providerVersionsCache := pvc, providerCache := pc },
            ignoreCache := ig }

/-! ### Module cache refresh (`GitHubStore.ReloadCache`) and lookups -/

structure ModuleVersion where
  Version : String
  SourceURL : String
deriving DecidableEq

/-- A repository as the module refresh consumes it; `tags` are the tag
names `ListTags` returned. -/
structure ModuleRepoData where
  fullName : String
  tags : Except GHErr (List String)

/-- What the GitHub API returned during one module refresh cycle. -/
structure ModuleFetch where
  searchResult : Except GHErr (List ModuleRepoData)

/-- Is the string all decimal digits and non-empty? -/
def isNumeric (s : String) : Bool :=
  !s.data.isEmpty && s.data.all Char.isDigit

/-- Modelled from the spec: the SemVer acceptance test of the external
hashicorp/go-version parser the store calls, `MAJOR.MINOR.PATCH` with
numeric core and an optional pre-release or build suffix. -/
def semverOk (s : String) : Bool :=
  match splitOnChar ⟨s.data.takeWhile (fun c => !(c = '-' || c = '+'))⟩ '.' with
  | [a, b, c] => isNumeric a && isNumeric b && isNumeric c
  | _ => false

/-- The tag loop of `ReloadCache`: strip a leading "v", keep SemVer-parsable
versions, and build the git source URL from the original tag name. -/
def admitVersions (owner name : String) (tags : List String) :
    List ModuleVersion :=
  tags.filterMap (fun tag =>
    let version := trimPrefixOf tag "v"
    if semverOk version then
      some { Version := version,
             SourceURL := "git::ssh://git@github.com/" ++ owner ++ "/" ++
               name ++ ".git?ref=" ++ tag }
    else none)

/-- The repository loop of `ReloadCache`: the fresh map receives an entry
`owner/name/generic` for every discovered repository, also when zero tags
were admitted. -/
def buildModuleCache (fresh : List (String × List ModuleVersion)) :
    List ModuleRepoData → Except GHErr (List (String × List ModuleVersion))
  | [] => .ok fresh
  | repo :: rest =>
    match splitOnChar repo.fullName '/' with
    | [owner, name] =>
      match repo.tags with
      | .error e => .error e
      | .ok tags =>
        buildModuleCache
          (mapSet fresh (owner ++ "/" ++ name ++ "/generic")
            (admitVersions owner name tags))
          rest
    | _ => .error .other

/-- Store state touched by a module refresh. -/
structure GHModuleState where
  moduleCache : List (String × List ModuleVersion)
deriving DecidableEq

/-- Outcome of one `ReloadCache` call. -/
inductive ModReloadOutcome
  | err (e : GHErr) (st : GHModuleState)
  | ok (st : GHModuleState)
deriving DecidableEq

/-- Embeds `GitHubStore.ReloadCache`: search module repositories, build a fresh map
locally, swap it in only after the loop completes. -/
def reloadCache (st : GHModuleState) (fetch : ModuleFetch) :
    ModReloadOutcome :=
  match fetch.searchResult with
  | .error e => .err e st
  | .ok repos =>
    match buildModuleCache [] repos with
    | .error e => .err e st
    | .ok fresh => .ok { moduleCache := fresh }

/-- Embeds `GitHubStore.ListModuleVersions`: cache lookup under
`namespace/name/provider`; a missing key is the not-found error. -/
def listModuleVersions (st : GHModuleState) (ns name provider : String) :
    Except Unit (List ModuleVersion) :=
  match mapLookup st.moduleCache (cacheKey [ns, name, provider]) with
  | none => .error ()
  | some versions => .ok versions

/-- The wire-relevant part of the `Registry.ModuleVersions` response: HTTP
status and, on success, the version strings of the single `modules` entry. -/
structure ModuleVersionsHTTP where
  status : Nat
  versions : Option (List String)
deriving DecidableEq

/-- Embeds `Registry.ModuleVersions` (pkg/registry/registry.go): a store error is
404, success serialises whatever list the store returned. -/
def moduleVersionsHandler (st : GHModuleState) (ns name provider : String) :
    ModuleVersionsHTTP :=
  match listModuleVersions st ns name provider with
  | .error _ => { status := 404, versions := none }
  | .ok versions =>
    { status := 200, versions := some (versions.map (fun v => v.Version)) }

/-! ### The periodic refresh loop (cmd/terraform-registry/main.go,
`gitHubRegistry`) -/

inductive LogLevel
  | debug
  | info
  | warn
  | error
deriving DecidableEq

structure LogEntry where
  level : LogLevel
  msg : String
deriving DecidableEq

/-- One tick of the refresh goroutine: reload, and on failure log at error
level and keep going. -/
def refreshTick (st : GHModuleState) (fetch : ModuleFetch) :
    GHModuleState × List LogEntry :=
  match reloadCache st fetch with
  | .ok st2 => (st2, [])
  | .err _ st2 =>
    (st2, [{ level := .error, msg := "failed to reload GitHub store cache" }])

/-- The refresh loop over a sequence of ticks; a failed cycle does not stop
the loop. -/
def refreshLoop (st : GHModuleState) :
    List ModuleFetch → GHModuleState × List LogEntry
  | [] => (st, [])
  | f :: rest =>
    let step := refreshTick st f
    let next := refreshLoop step.1 rest
    (next.1, step.2 ++ next.2)

/-! ### Search queries (`searchModuleRepositories` /
`searchProviderRepositories`) -/

/-- Embeds `GitHubStore.searchModuleRepositories`: clauses for the module search. -/
def searchModuleFilters (ownerFilter topicFilter : String) : List String :=
  let filters : List String := []
  let filters :=
    if ownerFilter ≠ "" then filters ++ ["org:\"" ++ ownerFilter ++ "\""]
    else filters
  let filters :=
    if topicFilter ≠ "" then filters ++ ["topic:\"" ++ topicFilter ++ "\""]
    else filters
  filters

/-- Embeds `GitHubStore.searchProviderRepositories`: clauses for the provider
search. As in the source, the emission of each clause is gated on the module
filter fields `ownerFilter` and `topicFilter`, while the clause text
interpolates the provider filter fields. -/
def searchProviderFilters
    (ownerFilter topicFilter providerOwnerFilter providerTopicFilter :
      String) : List String :=
  let filters : List String := []
  let filters :=
    if ownerFilter ≠ "" then
      filters ++ ["org:\"" ++ providerOwnerFilter ++ "\""]
    else filters
  let filters :=
    if topicFilter ≠ "" then
      filters ++ ["topic:\"" ++ providerTopicFilter ++ "\""]
    else filters
  filters

/-- The query string handed to the repository search:
`strings.Join(filters, " ")`. -/
def searchProviderQuery
    (ownerFilter topicFilter providerOwnerFilter providerTopicFilter :
      String) : String :=
  joinSpace (searchProviderFilters ownerFilter topicFilter
    providerOwnerFilter providerTopicFilter)

/-! ### Asset download pipeline (`GetProviderAsset`, `findAsset`,
`Registry.ProviderAssetDownload`) -/

/-- An asset stream handed to the handler: the body and whether copying it to
the response fails mid-transfer. -/
structure AssetStream where
  content : String
  copyFails : Bool
deriving DecidableEq

/-- Embeds `GitHubStore.findAsset`: `releaseAsset` starts as the nil interface and
is only assigned when an asset name matches and its download succeeds; when
no asset matches, the nil stream is returned together with a nil error. -/
def findAsset : List ReleaseAsset → String → Except Unit (Option AssetStream)
  | [], _ => .ok none
  | a :: rest, assetName =>
    if a.name = assetName then
      if a.downloadErr then .error ()
      else .ok (some { content := a.content, copyFails := a.streamErr })
    else findAsset rest assetName

/-- Embeds `GitHubStore.GetProviderAsset`: resolve the provider from the repository
name, require the stripped tag among the cached versions, fetch the release
by tag (its outcome is the `releaseByTag` input) and delegate to
`findAsset`. -/
def getProviderAsset
    (providerVersionsCache : List (String × ProviderVersions))
    (owner repo tag assetName : String)
    (releaseByTag : Except GHErr Release) : Except Unit (Option AssetStream) :=
  let nameKey := trimPrefixOf repo "terraform-provider-"
  let key := cacheKey [owner, nameKey]
  match mapLookup providerVersionsCache key with
  | none => .error ()
  | some versions =>
    if versions.Versions.any (fun v => trimPrefixOf tag "v" = v.Version) then
      match releaseByTag with
      | .error _ => .error ()
      | .ok release => findAsset release.assets assetName
    else .error ()

/-- Outcome of the asset handler: an HTTP response, or the runtime fault of
calling `Close` on a nil `io.ReadCloser`. -/
inductive HandlerOutcome
  | response (status : Nat)
  | fault
deriving DecidableEq

/-- Embeds `Registry.ProviderAssetDownload`: a store error is 404; otherwise the
handler immediately defers `asset.Close()` and then copies the stream, with
500 on a copy failure and 200 on success. When the store returned the nil
stream with a nil error, the deferred `Close` is a method call on a nil
interface: a runtime fault, not an HTTP response. -/
def providerAssetDownload
    (providerVersionsCache : List (String × ProviderVersions))
    (owner repo tag assetName : String)
    (releaseByTag : Except GHErr Release) : HandlerOutcome :=
  match getProviderAsset providerVersionsCache owner repo tag assetName
      releaseByTag with
  | .error _ => .response 404
  | .ok none => .fault
  | .ok (some stream) =>
    if stream.copyFails then .response 500 else .response 200

/-! ### Theorems on the store -/

/-- C9. `parseSHASumsFile` does not return a map for every content: the code
indexes `parts[0]` and `parts[1]` with no length check, so the single empty
line of the one-byte content "\n" produces zero fields and the function hits
an out-of-range index (the `none` result) instead of contributing no entry.
A well-formed line parses into the map as expected. -/
theorem parseSHASumsFile_short_line_panics :
    parseSHASumsFile "\n" = none ∧
    parseSHASumsFile "h f\n" = some [("f", "h")] :=
  ⟨rfl, rfl⟩

/-- C7. The provider search emits its clauses under the wrong gates: with
both module filters empty, a non-empty provider owner filter contributes no
clause at all, and with a module owner filter set, an empty provider owner
filter contributes the clause `org:""`. The clause text does interpolate the
provider filters, so the slip is only the gating fields. -/
theorem searchProviderFilters_gate_bug :
    searchProviderFilters "" "" "acme" "" = [] ∧
    searchProviderQuery "" "" "acme" "" = "" ∧
    searchProviderFilters "modorg" "" "" "" = ["org:\"\""] ∧
    searchProviderFilters "modorg" "modtopic" "provorg" "provtopic" =
      ["org:\"provorg\"", "topic:\"provtopic\""] := by
  decide

/-- The release used to exhibit the asset-not-found fault: one asset named
"a.zip" that downloads fine. -/
def releaseOneAsset : Release :=
  { name := "v1.0.0",
    assets := [{ name := "a.zip", browserDownloadURL := "u", content := "c",
                 downloadErr := false, armorParse := none,
                 manifestParse := none, streamErr := false }] }

/-- The provider versions cache naming provider o/x at version 1.0.0. -/
def oneProviderVersionsCache : List (String × ProviderVersions) :=
  [("o/x", { Versions := [{ Version := "1.0.0", Protocols := ["5.0"],
                            Platforms := [] }] })]

/-- C10. Requesting an asset name that matches no asset of an indexed
release: `findAsset` returns the nil stream with a nil error, so the handler
reaches `defer asset.Close()` on a nil interface and faults instead of
answering an HTTP error status. -/
theorem providerAssetDownload_nil_asset_fault :
    getProviderAsset oneProviderVersionsCache "o" "terraform-provider-x"
        "v1.0.0" "b.zip" (.ok releaseOneAsset) = .ok none ∧
    providerAssetDownload oneProviderVersionsCache "o" "terraform-provider-x"
        "v1.0.0" "b.zip" (.ok releaseOneAsset) = .fault :=
  ⟨rfl, rfl⟩

/-- A release carrying a SHA256SUMS file, a single-entity GPG key and one
linux/amd64 binary, and no SHA256SUMS.sig asset at all. -/
def releaseNoSig : Release :=
  { name := "v1.0.0",
    assets :=
      [{ name := "SHA256SUMS", browserDownloadURL := "https://h/sums",
         content := "abc x_1.0.0_linux_amd64.zip", downloadErr := false,
         armorParse := none, manifestParse := none, streamErr := false },
       { name := "gpg-public-key.pem", browserDownloadURL := "https://h/gpg",
         content := "ARMOR", downloadErr := false,
         armorParse := some ["KEY1"], manifestParse := none,
         streamErr := false },
       { name := "x_1.0.0_linux_amd64.zip",
         browserDownloadURL := "https://h/a.zip", content := "BIN",
         downloadErr := false, armorParse := none, manifestParse := none,
         streamErr := false }] }

/-- The repository publishing `releaseNoSig`. -/
def repoNoSig : RepoData :=
  { fullName := "o/terraform-provider-x", isPrivate := false,
    releases := .ok [releaseNoSig] }

/-- Did the reload swap fresh caches in? -/
def reloadIsOk : ReloadOutcome → Bool
  | .ok _ => true
  | _ => false

/-- The ignore cache after a reload (empty for a panic). -/
def reloadIgnoreCache : ReloadOutcome → List String
  | .panic => []
  | .err _ st => st.ignoreCache
  | .ok st => st.ignoreCache

/-- The package cache after a reload (empty for a panic). -/
def reloadPkgCache : ReloadOutcome → List (String × Provider)
  | .panic => []
  | .err _ st => st.caches.providerCache
  | .ok st => st.caches.providerCache

/-- C2 counterexample. A release with a SHA256SUMS asset, a single-entity GPG
key and no SHA256SUMS.sig asset anywhere is admitted to the index and is not
recorded in the ignore cache: the code never checks for the signature asset
(it only fabricates the `.sig` URL), refuting the claim that such a release
is rejected. -/
theorem reloadProviderCache_missing_sig_admitted :
    reloadIsOk (reloadProviderCache ⟨⟨[], []⟩, []⟩ ⟨.ok [repoNoSig]⟩) = true ∧
    reloadIgnoreCache (reloadProviderCache ⟨⟨[], []⟩, []⟩ ⟨.ok [repoNoSig]⟩) =
      [] ∧
    (mapLookup (reloadPkgCache (reloadProviderCache ⟨⟨[], []⟩, []⟩
        ⟨.ok [repoNoSig]⟩)) "o/x/1.0.0/linux/amd64").isSome = true := by
  decide

/-- C2 amended. For a release whose key is not yet ignored: if it has no
SHA256SUMS asset, or its checksum and manifest stages succeed but the GPG
stage errors (unparsable ring or a ring with other than one entity) or
yields other than exactly one key (in particular when no key asset exists),
then the release contributes no package and no version entry, its
`nameKey/version` key is appended to the ignore cache, and any later
examination of that key skips the release without validating anything. A
missing SHA256SUMS.sig asset, by contrast, does not prevent admission. -/
theorem providerRelease_invalid_ignored
    (ig : List String) (pc : List (String × Provider))
    (owner name nameKey : String) (isPrivate : Bool) (rel : Release)
    (hnotig : cacheKey [nameKey, trimPrefixOf rel.name "v"] ∉ ig)
    (hbad :
      getSHA256Sums rel.assets = .notFound ∨
      (∃ sums url fname protocols,
        getSHA256Sums rel.assets = .found sums url fname ∧
        getProviderProtocols rel.assets = .ok protocols ∧
        (getGPGPublicKey rel.assets [] = .error () ∨
         ∃ keys, getGPGPublicKey rel.assets [] = .ok keys ∧
           keys.length ≠ 1))) :
    processRelease ig pc owner name nameKey isPrivate rel =
      some (ig ++ [cacheKey [nameKey, trimPrefixOf rel.name "v"]], pc,
        none) ∧
    (∀ ig2 pc2 rel2,
      trimPrefixOf rel2.name "v" = trimPrefixOf rel.name "v" →
      cacheKey [nameKey, trimPrefixOf rel.name "v"] ∈ ig2 →
      processRelease ig2 pc2 owner name nameKey isPrivate rel2 =
        some (ig2, pc2, none)) := by
  constructor
  · simp only [processRelease]
    rw [if_neg hnotig]
    rcases hbad with hnf | ⟨sums, url, fname, protocols, hfound, hprot, hgpg⟩
    · rw [hnf]
    · rcases hgpg with herr | ⟨keys, hok, hlen⟩
      · simp only [hfound, hprot, herr]
      · simp only [hfound, hprot, hok]
        rw [if_pos hlen]
  · intro ig2 pc2 rel2 hver hmem
    simp only [processRelease]
    rw [hver, if_pos hmem]

/-- Witness for `providerRelease_invalid_ignored`: a release with no assets
at all is recorded under `x/1.0.0` and skipped the next time around. -/
theorem providerRelease_invalid_ignored_witness :
    processRelease [] [] "o" "terraform-provider-x" "x" false
        { name := "v1.0.0", assets := [] } =
      some (["x/1.0.0"], [], none) ∧
    processRelease ["x/1.0.0"] [] "o" "terraform-provider-x" "x" false
        { name := "v1.0.0", assets := [] } =
      some (["x/1.0.0"], [], none) := by
  have h := providerRelease_invalid_ignored [] [] "o" "terraform-provider-x"
    "x" false { name := "v1.0.0", assets := [] } (by decide) (Or.inl rfl)
  exact ⟨h.1, h.2 ["x/1.0.0"] [] { name := "v1.0.0", assets := [] } rfl
    (by decide)⟩

/-- C6 counterexample. A discovered repository whose only tag is not SemVer
is still indexed, with an empty version list: the lookup succeeds with `[]`
and the handler answers 200 with an empty `versions` array, not 404. -/
theorem reloadCache_empty_versions_indexed :
    reloadCache ⟨[]⟩ ⟨.ok [⟨"o/r", .ok ["foo"]⟩]⟩ =
      .ok ⟨[("o/r/generic", [])]⟩ ∧
    listModuleVersions ⟨[("o/r/generic", [])]⟩ "o" "r" "generic" = .ok [] ∧
    moduleVersionsHandler ⟨[("o/r/generic", [])]⟩ "o" "r" "generic" =
      { status := 200, versions := some [] } :=
  ⟨rfl, rfl, rfl⟩

/-- The module cache key a repository ends up under, for stating key
disjointness. -/
def moduleRepoKey (r : ModuleRepoData) : String :=
  match splitOnChar r.fullName '/' with
  | [owner, name] => owner ++ "/" ++ name ++ "/generic"
  | _ => ""

theorem buildModuleCache_lookup_preserved
    (repos : List ModuleRepoData)
    (fresh out : List (String × List ModuleVersion)) (k : String)
    (hk : ∀ r ∈ repos, moduleRepoKey r ≠ k)
    (hok : buildModuleCache fresh repos = .ok out) :
    mapLookup out k = mapLookup fresh k := by
  induction repos generalizing fresh with
  | nil =>
    simp only [buildModuleCache] at hok
    injection hok with h
    rw [h]
  | cons repo rest ih =>
    simp only [buildModuleCache] at hok
    rcases hsplit : splitOnChar repo.fullName '/' with
      _ | ⟨o, _ | ⟨n, _ | ⟨c, r⟩⟩⟩ <;> rw [hsplit] at hok
    · simp at hok
    · simp at hok
    · rcases htags : repo.tags with e | tags <;> rw [htags] at hok
      · simp at hok
      · have hkey : moduleRepoKey repo = o ++ "/" ++ n ++ "/generic" := by
          simp [moduleRepoKey, hsplit]
        have hne : o ++ "/" ++ n ++ "/generic" ≠ k := by
          rw [← hkey]
          exact hk repo (List.mem_cons_self repo rest)
        have := ih (mapSet fresh (o ++ "/" ++ n ++ "/generic")
            (admitVersions o n tags))
          (fun r hmem => hk r (List.mem_cons_of_mem repo hmem)) hok
        rw [this, mapLookup_set_ne _ _ _ _ (fun hh => hne hh.symm)]
    · simp at hok

theorem buildModuleCache_lookup_found
    (repos : List ModuleRepoData)
    (fresh out : List (String × List ModuleVersion))
    (hnd : (repos.map moduleRepoKey).Nodup)
    (hok : buildModuleCache fresh repos = .ok out)
    (repo : ModuleRepoData) (hmem : repo ∈ repos) (owner name : String)
    (tags : List String)
    (hsplit : splitOnChar repo.fullName '/' = [owner, name])
    (htags : repo.tags = .ok tags) :
    mapLookup out (owner ++ "/" ++ name ++ "/generic") =
      some (admitVersions owner name tags) := by
  induction repos generalizing fresh with
  | nil => exact absurd hmem (List.not_mem_nil repo)
  | cons r rest ih =>
    rcases List.mem_cons.mp hmem with heq | hmem2
    · subst heq
      simp only [buildModuleCache, hsplit, htags] at hok
      have hkey : moduleRepoKey repo = owner ++ "/" ++ name ++ "/generic" := by
        simp [moduleRepoKey, hsplit]
      have hrest : ∀ r2 ∈ rest,
          moduleRepoKey r2 ≠ owner ++ "/" ++ name ++ "/generic" := by
        intro r2 hmem3
        have := hnd
        simp only [List.map_cons, List.nodup_cons] at this
        intro hh
        exact this.1 (hkey ▸ hh ▸ List.mem_map_of_mem moduleRepoKey hmem3)
      rw [buildModuleCache_lookup_preserved rest _ out _ hrest hok,
        mapLookup_set_self]
    · rcases hsplit2 : splitOnChar r.fullName '/' with
        _ | ⟨o, _ | ⟨n, _ | ⟨c, rr⟩⟩⟩ <;>
        simp only [buildModuleCache, hsplit2] at hok
      · simp at hok
      · simp at hok
      · rcases htags2 : r.tags with e | tags2 <;> rw [htags2] at hok
        · simp at hok
        · exact ih _ (by simpa using hnd.of_cons) hok hmem2
      · simp at hok

/-- C6 amended. A module address is indexed exactly when the backend
discovered its repository, regardless of how many SemVer tags were admitted:
after a successful refresh (with distinct repository keys), every discovered
repository `owner/name` is found under `owner/name/generic` with exactly the
SemVer-admitted versions — an empty list when no tag parsed — and the
handler answers 200 with that (possibly empty) list; 404 arises exactly for
keys absent from the index, not for empty lists. -/
theorem moduleVersions_discovered_indexed
    (st st2 : GHModuleState) (fetch : ModuleFetch)
    (repos : List ModuleRepoData)
    (hsearch : fetch.searchResult = .ok repos)
    (hok : reloadCache st fetch = .ok st2)
    (hnd : (repos.map moduleRepoKey).Nodup) :
    (∀ repo ∈ repos, ∀ owner name tags,
      splitOnChar repo.fullName '/' = [owner, name] →
      repo.tags = .ok tags →
      listModuleVersions st2 owner name "generic" =
        .ok (admitVersions owner name tags) ∧
      moduleVersionsHandler st2 owner name "generic" =
        { status := 200,
          versions := some ((admitVersions owner name tags).map
            (fun v => v.Version)) }) ∧
    (∀ ns n p, mapLookup st2.moduleCache (cacheKey [ns, n, p]) = none →
      moduleVersionsHandler st2 ns n p = { status := 404, versions := none }) := by
  have hfresh : buildModuleCache [] repos = .ok st2.moduleCache := by
    simp only [reloadCache, hsearch] at hok
    rcases hb : buildModuleCache [] repos with e | fresh <;> rw [hb] at hok
    · simp at hok
    · injection hok with h
      rw [← h]
  constructor
  · intro repo hmem owner name tags hsplit htags
    have hlook := buildModuleCache_lookup_found repos [] st2.moduleCache hnd
      hfresh repo hmem owner name tags hsplit htags
    have hkey : cacheKey [owner, name, "generic"] =
        owner ++ "/" ++ name ++ "/generic" := by
      simp [cacheKey, String.append_assoc]
    constructor
    · simp only [listModuleVersions, hkey, hlook]
    · simp only [moduleVersionsHandler, listModuleVersions, hkey, hlook]
  · intro ns n p hnone
    simp only [moduleVersionsHandler, listModuleVersions, hnone]

/-- Witness for `moduleVersions_discovered_indexed`: one repository with one
SemVer tag and one junk tag is served with the single admitted version. -/
theorem moduleVersions_discovered_indexed_witness :
    listModuleVersions
        ⟨[("o/r/generic", admitVersions "o" "r" ["v1.2.3", "foo"])]⟩
        "o" "r" "generic" =
      .ok (admitVersions "o" "r" ["v1.2.3", "foo"]) :=
  ((moduleVersions_discovered_indexed ⟨[]⟩
        ⟨[("o/r/generic", admitVersions "o" "r" ["v1.2.3", "foo"])]⟩
        ⟨.ok [⟨"o/r", .ok ["v1.2.3", "foo"]⟩]⟩
        [⟨"o/r", .ok ["v1.2.3", "foo"]⟩] rfl (by decide) (by decide)).1
      ⟨"o/r", .ok ["v1.2.3", "foo"]⟩ (List.mem_singleton.mpr rfl)
      "o" "r" ["v1.2.3", "foo"] (by decide) rfl).1

/-- C5. A refresh cycle that ends in an error — a rate-limit or any other
backend error during repository search, tag listing or release listing —
leaves the module cache and the provider caches exactly as they were (the
error return happens before the fresh maps are swapped in), logs the failure
at error level, and does not stop the refresh loop: the next tick runs on
the retained state. -/
theorem refresh_failure_preserves_index
    (stM st2 : GHModuleState) (f : ModuleFetch) (e : GHErr)
    (stP stP2 : GHProviderState) (fp : ProviderFetch) (e2 : GHErr)
    (hm : reloadCache stM f = .err e st2)
    (hp : reloadProviderCache stP fp = .err e2 stP2) :
    st2.moduleCache = stM.moduleCache ∧
    stP2.caches = stP.caches ∧
    refreshTick stM f =
      (st2, [{ level := .error,
               msg := "failed to reload GitHub store cache" }]) ∧
    (∀ rest, refreshLoop stM (f :: rest) =
      ((refreshLoop st2 rest).1,
        { level := LogLevel.error,
          msg := "failed to reload GitHub store cache" } ::
          (refreshLoop st2 rest).2)) := by
  have hmod : st2 = stM := by
    unfold reloadCache at hm
    rcases hs : f.searchResult with es | repos <;> simp only [hs] at hm
    · injection hm with h1 h2
      exact h2.symm
    · rcases hb : buildModuleCache [] repos with eb | fresh <;>
        simp only [hb] at hm
      · injection hm with h1 h2
        exact h2.symm
      · exact ModReloadOutcome.noConfusion hm
  have hprov : stP2.caches = stP.caches := by
    unfold reloadProviderCache at hp
    rcases hs : fp.searchResult with es | repos <;> simp only [hs] at hp
    · injection hp with h1 h2
      rw [← h2]
    · rcases hb : processRepos stP.ignoreCache [] [] repos with
        _ | ⟨eb, ig⟩ | ⟨ig, pvc, pc⟩ <;> simp only [hb] at hp
      · exact ReloadOutcome.noConfusion hp
      · injection hp with h1 h2
        rw [← h2]
      · exact ReloadOutcome.noConfusion hp
  refine ⟨by rw [hmod], hprov, ?_, ?_⟩
  · unfold refreshTick
    rw [hm]
  · intro rest
    simp only [refreshLoop, refreshTick, hm, List.singleton_append]

/-- Witness for `refresh_failure_preserves_index`: a rate-limited search
leaves a one-module cache in place and logs at error level. -/
theorem refresh_failure_preserves_index_witness :
    refreshTick ⟨[("a/b/generic", [])]⟩ ⟨.error .rateLimit⟩ =
      (⟨[("a/b/generic", [])]⟩,
        [{ level := .error, msg := "failed to reload GitHub store cache" }]) :=
  (refresh_failure_preserves_index ⟨[("a/b/generic", [])]⟩
    ⟨[("a/b/generic", [])]⟩ ⟨.error .rateLimit⟩ .rateLimit
    ⟨⟨[], []⟩, []⟩ ⟨⟨[], []⟩, []⟩ ⟨.error .rateLimit⟩ .rateLimit
    rfl rfl).2.2.1

end TFReg
